import Mathlib

/-!
Verification of the conversational to-do-list assistant (`main.py`).

The development shallowly embeds the program:

* `JValue` models the Python/JSON values returned by the `JsonOutputParser`
  stage of the LangChain pipeline (`chain.invoke` output).
* `Task` models the task dictionaries stored in `self.tasks`.
* `add_task`, `list_tasks` model the two store methods of `ToDoListAssistant`.
* `runTurn` models one iteration of the `run` read loop: the quit check,
  the dispatch over the parsed command, and the two `except` handlers
  (`OutputParserException` and the generic `Exception` handler).
* Printed output is modelled structurally by the `Msg` type; the exact text
  of a rendered task line is modelled by `renderLine`.
-/

namespace ToDo

/-- JSON-like values as produced by `json` parsing in Python
(`JsonOutputParser` output).  Numbers are modelled as integers; no claim
depends on fractional values. -/
inductive JValue where
  | null
  | bool (b : Bool)
  | num (n : Int)
  | str (s : String)
  | arr (elems : List JValue)
  | obj (fields : List (String × JValue))

/-- A stored task: the dictionary literal built in `ToDoListAssistant.add_task`.
Field values other than `id` and `status` are arbitrary Python values coming
from the parsed command, hence `JValue`. -/
structure Task where
  id : Nat
  description : JValue
  due_date : JValue
  priority : JValue
  status : String

/-- Python truthiness (`bool(v)`) for the modelled values; used by
`x.get("due_date") or "z"` and by the `if task["due_date"]` rendering guard. -/
def jTruthy : JValue → Bool
  | .null => false
  | .bool b => b
  | .num n => !(n == 0)
  | .str s => !s.data.isEmpty
  | .arr xs => !xs.isEmpty
  | .obj fs => !fs.isEmpty

/-- Python `dict.get(k)`: first binding of `k`, if any (dict keys are unique,
so first-match lookup is faithful). -/
def jLookup (fields : List (String × JValue)) (k : String) : Option JValue :=
  match fields with
  | [] => none
  | (k2, v) :: rest => if k2 = k then some v else jLookup rest k

/-- Code points of a string, the units Python compares strings by. -/
def codes (s : String) : List Nat := s.data.map Char.toNat

/-- Python string `<`: lexicographic comparison by code point, a proper
prefix being smaller. -/
def strLt : List Nat → List Nat → Bool
  | [], [] => false
  | [], _ :: _ => true
  | _ :: _, [] => false
  | a :: as, b :: bs => if a < b then true else if b < a then false else strLt as bs

/-- The first component of the sort key in `list_tasks`:
`x.get("due_date") or "z"`. -/
def dueKey (t : Task) : JValue :=
  if jTruthy t.due_date then t.due_date else .str "z"

/-- The code points the sort key is compared by.  In every execution the
claims range over, `dueKey` is a string; other values are keyed by `[]`. -/
def keyCodes (t : Task) : List Nat :=
  match dueKey t with
  | .str s => codes s
  | _ => []

/-- Python tuple comparison `(key a) < (key b)` for the `sorted` key
`(x.get("due_date") or "z", x["id"])`: lexicographic on the key string then
the id. -/
def keyLt (a b : Task) : Bool :=
  decide (strLt (keyCodes a) (keyCodes b) = true ∨
    (keyCodes a = keyCodes b ∧ a.id < b.id))

/-- Insert a task into an already sorted list, before the first element not
strictly below it (stable insertion). -/
def insertTask (t : Task) : List Task → List Task
  | [] => [t]
  | u :: us => if keyLt u t then u :: insertTask t us else t :: u :: us

/-- The ordering produced by `sorted(self.tasks, key=lambda x:
(key))` with key `(x.get("due_date") or "z", x["id"])`: a stable sort by `keyLt`.  A stable
sort is extensionally unique, so insertion sort is a faithful model of
the `sorted` built-in. -/
def sortTasks : List Task → List Task
  | [] => []
  | t :: ts => insertTask t (sortTasks ts)

/-- `48 ≤ n ≤ 57`: the code point is an ASCII digit. -/
def isDig (n : Nat) : Bool := 48 ≤ n && n ≤ 57

/-- The code-point list spells a `YYYY-MM-DD` string: ten characters, digits
in the year/month/day positions and `-` (code 45) as the two separators. -/
def validDate : List Nat → Bool
  | [y1, y2, y3, y4, s1, m1, m2, s2, d1, d2] =>
    isDig y1 && isDig y2 && isDig y3 && isDig y4 && s1 == 45 &&
    isDig m1 && isDig m2 && s2 == 45 && isDig d1 && isDig d2
  | _ => false

/-- The calendar value of a `YYYY-MM-DD` code-point list, as the number
`year * 10000 + month * 100 + day`; `0` on any other shape. -/
def dv : List Nat → Nat
  | [y1, y2, y3, y4, _, m1, m2, _, d1, d2] =>
    ((y1 - 48) * 1000 + (y2 - 48) * 100 + (y3 - 48) * 10 + (y4 - 48)) * 10000 +
      ((m1 - 48) * 10 + (m2 - 48)) * 100 + ((d1 - 48) * 10 + (d2 - 48))
  | _ => 0

/-- The date value of a task whose `due_date` is a string. -/
def taskDV (t : Task) : Nat :=
  match t.due_date with
  | .str s => dv (codes s)
  | _ => 0

/-- The task has a due date in the sense of the spec: a `YYYY-MM-DD` string. -/
def isDated (t : Task) : Prop :=
  ∃ s, t.due_date = JValue.str s ∧ validDate (codes s) = true

mutual

/-- Python `repr` of a modelled value (used when a container is rendered
inside an f-string). -/
def pyRepr : JValue → String
  | .null => "None"
  | .bool true => "True"
  | .bool false => "False"
  | .num n => toString n
  | .str s => "\x27" ++ s ++ "\x27"
  | .arr xs => "[" ++ pyReprItems xs ++ "]"
  | .obj fs => "\x7b" ++ pyReprFields fs ++ "\x7d"

/-- Comma-separated `repr`s of list items. -/
def pyReprItems : List JValue → String
  | [] => ""
  | [x] => pyRepr x
  | x :: xs => pyRepr x ++ ", " ++ pyReprItems xs

/-- Comma-separated `repr`s of dict entries. -/
def pyReprFields : List (String × JValue) → String
  | [] => ""
  | [(k, v)] => "\x27" ++ k ++ "\x27: " ++ pyRepr v
  | (k, v) :: fs => "\x27" ++ k ++ "\x27: " ++ pyRepr v ++ ", " ++ pyReprFields fs

end

/-- Python `str(v)`, the conversion applied by f-string interpolation. -/
def pyFmt : JValue → String
  | .str s => s
  | v => pyRepr v

/-- The optional due-date piece of a rendered task line:
`f" (Due: ...)" if task["due_date"] else ""`, interpolating the due date. -/
def dueNote (t : Task) : String :=
  if jTruthy t.due_date then " (Due: " ++ pyFmt t.due_date ++ ")" else ""

/-- One line of `list_tasks` output:
an f-string interpolating the id, the description, `date_str`, and the priority. -/
def renderLine (t : Task) : String :=
  "  - [ID: " ++ toString t.id ++ "] " ++ pyFmt t.description ++ dueNote t ++
    " [Priority: " ++ pyFmt t.priority ++ "]"

/-- The messages the assistant prints, one constructor per `print` site of
the source (exception texts of the generic handler are abstracted). -/
inductive Msg where
  | goodbye
  | parseTrouble
  | unexpectedError
  | taskAdded (description priority : JValue)
  | emptyList
  | listHeader
  | listLine (line : String)
  | listFooter
  | assistantError (message : JValue)

/-- `ToDoListAssistant.add_task`: build the task dictionary with
`id = len(self.tasks) + 1` and `status = "pending"`, append it, and print the
confirmation. -/
def add_task (tasks : List Task) (description due_date priority : JValue) :
    List Task × Msg :=
  let task : Task :=
    { id := tasks.length + 1, description := description, due_date := due_date,
      priority := priority, status := "pending" }
  (tasks ++ [task], .taskAdded description priority)

/-- The lines printed by `ToDoListAssistant.list_tasks`: the empty-list notice
on an empty store, otherwise header, one rendered line per task in sorted
order, and footer. -/
def listMsgs (tasks : List Task) : List Msg :=
  if tasks.isEmpty then [.emptyList]
  else .listHeader :: (sortTasks tasks).map (fun t => .listLine (renderLine t)) ++ [.listFooter]

/-- `ToDoListAssistant.list_tasks` as a state-passing operation: it reads
`self.tasks` without assigning to it, so the returned store is the input. -/
def list_tasks (tasks : List Task) : List Task × List Msg :=
  (tasks, listMsgs tasks)

/-- Outcome of `self.chain.invoke(...)`: a parsed JSON value, an
`OutputParserException`, or any other exception from the underlying call. -/
inductive OracleOutcome where
  | output (v : JValue)
  | parseError
  | runtimeError

/-- Result of one iteration of the `run` loop. -/
structure TurnResult where
  tasks : List Task
  printed : List Msg
  exited : Bool

/-- The `action == "add_task"` branch: `self.add_task(**params)`.  The
keyword expansion raises `TypeError` — caught by the generic handler —
when `params` is not a mapping, when it carries a key other than the three
parameter names, or when `description` is absent; otherwise `add_task` runs
with the given and defaulted arguments. -/
def addDispatch (tasks : List Task) (params : JValue) : TurnResult :=
  match params with
  | .obj pfields =>
    if pfields.all (fun kv =>
        kv.1 == "description" || kv.1 == "due_date" || kv.1 == "priority") then
      match jLookup pfields "description" with
      | some d =>
        let r := add_task tasks d ((jLookup pfields "due_date").getD .null)
          ((jLookup pfields "priority").getD (.str "medium"))
        ⟨r.1, [r.2], false⟩
      | none => ⟨tasks, [.unexpectedError], false⟩
    else ⟨tasks, [.unexpectedError], false⟩
  | _ => ⟨tasks, [.unexpectedError], false⟩

/-- The `action == "error"` branch:
print the message obtained by `params.get("message", <fallback text>)`;
`.get` on a non-dict raises `AttributeError`, caught by the generic handler. -/
def errorDispatch (tasks : List Task) (params : JValue) : TurnResult :=
  match params with
  | .obj pfields =>
    ⟨tasks, [.assistantError ((jLookup pfields "message").getD
      (.str "Sorry, I did not understand that."))], false⟩
  | _ => ⟨tasks, [.unexpectedError], false⟩

/-- Dispatch on the parsed command: `structured_command.get("action")` /
`structured_command.get("parameters", {})` and the `if/elif` chain.  A
non-dict command raises `AttributeError` at `.get`, caught by the generic
handler; an unrecognized action matches no branch and the turn does nothing. -/
def dispatchCommand (tasks : List Task) (v : JValue) : TurnResult :=
  match v with
  | .obj fields =>
    let params := (jLookup fields "parameters").getD (.obj [])
    match jLookup fields "action" with
    | some (.str "add_task") => addDispatch tasks params
    | some (.str "list_tasks") =>
      let r := list_tasks tasks
      ⟨r.1, r.2, false⟩
    | some (.str "error") => errorDispatch tasks params
    | _ => ⟨tasks, [], false⟩
  | _ => ⟨tasks, [.unexpectedError], false⟩

/-- Python `str.lower` on the characters of the input line. -/
def pyLower (s : String) : String := ⟨s.data.map Char.toLower⟩

/-- One iteration of the `run` loop on a given input line and oracle
outcome: the case-insensitive quit/exit check runs first and skips the
pipeline; otherwise the two `except` clauses or the dispatch decide the
turn. -/
def runTurn (tasks : List Task) (line : String) (oracle : OracleOutcome) :
    TurnResult :=
  if pyLower line = "quit" ∨ pyLower line = "exit" then ⟨tasks, [.goodbye], true⟩
  else
    match oracle with
    | .output v => dispatchCommand tasks v
    | .parseError => ⟨tasks, [.parseTrouble], false⟩
    | .runtimeError => ⟨tasks, [.unexpectedError], false⟩

/-- Task stores reachable by the read loop from the initial empty store. -/
inductive Reachable : List Task → Prop where
  | init : Reachable []
  | step (s : List Task) (line : String) (oracle : OracleOutcome) :
      Reachable s → Reachable (runTurn s line oracle).tasks

/-- The ordering the spec demands of the rendered sequence: dated tasks
first in ascending date order with ties broken by ascending id, undated
tasks last in ascending id order. -/
def specOrder (a b : Task) : Prop :=
  (isDated a ∧ isDated b ∧
    (taskDV a < taskDV b ∨ (taskDV a = taskDV b ∧ a.id ≤ b.id))) ∨
  (isDated a ∧ ¬ isDated b) ∨
  (¬ isDated a ∧ ¬ isDated b ∧ a.id ≤ b.id)

/-- `a` does not come strictly after `b` in the Python sort key order. -/
def taskLe (a b : Task) : Prop := keyLt b a = false

/-- The ids of the store are exactly `1, 2, …, length` in insertion order, as
produced by `id = len(self.tasks) + 1` on a pure-append store. -/
def idsSequential (ts : List Task) : Prop :=
  ts.map Task.id = List.range' 1 ts.length

/-- Whether a parsed value is a JSON object (a Python dict, the only values
whose `.get` does not raise `AttributeError`). -/
def isObj : JValue → Bool
  | .obj _ => true
  | _ => false

theorem strLt_asymm : ∀ x y : List Nat, strLt x y = true → strLt y x = false
  | [], [], h => by simp [strLt] at h
  | [], _ :: _, _ => by simp [strLt]
  | _ :: _, [], h => by simp [strLt] at h
  | a :: as, b :: bs, h => by
    simp only [strLt] at h ⊢
    split_ifs at h ⊢ <;> first | rfl | omega | exact strLt_asymm as bs h

theorem strLt_trans :
    ∀ x y z : List Nat, strLt x y = true → strLt y z = true → strLt x z = true
  | [], [], _, h1, _ => by simp [strLt] at h1
  | [], _ :: _, [], _, h2 => by simp [strLt] at h2
  | [], _ :: _, _ :: _, _, _ => by simp [strLt]
  | _ :: _, [], _, h1, _ => by simp [strLt] at h1
  | _ :: _, _ :: _, [], _, h2 => by simp [strLt] at h2
  | a :: as, b :: bs, c :: cs, h1, h2 => by
    simp only [strLt] at h1 h2 ⊢
    split_ifs at h1 h2 ⊢ <;>
      first | rfl | omega | exact strLt_trans as bs cs h1 h2

theorem strLt_conn :
    ∀ x y : List Nat, strLt x y = false → strLt y x = false → x = y
  | [], [], _, _ => rfl
  | [], _ :: _, h1, _ => by simp [strLt] at h1
  | _ :: _, [], _, h2 => by simp [strLt] at h2
  | a :: as, b :: bs, h1, h2 => by
    simp only [strLt] at h1 h2
    by_cases hab : a < b
    · rw [if_pos hab] at h1
      exact absurd h1 (by simp)
    · rw [if_neg hab] at h1
      by_cases hba : b < a
      · rw [if_pos hba] at h2
        exact absurd h2 (by simp)
      · rw [if_neg hba] at h1
        rw [if_neg hba, if_neg hab] at h2
        have hae : a = b := by omega
        rw [hae, strLt_conn as bs h1 h2]

theorem strLt_irrefl (x : List Nat) : strLt x x = false := by
  cases hx : strLt x x
  · rfl
  · exact absurd (strLt_asymm x x hx) (by simp [hx])

theorem keyLt_true {a b : Task} : keyLt a b = true ↔
    strLt (keyCodes a) (keyCodes b) = true ∨
      (keyCodes a = keyCodes b ∧ a.id < b.id) := by
  simp [keyLt]

theorem keyLt_false {a b : Task} : keyLt a b = false ↔
    strLt (keyCodes a) (keyCodes b) = false ∧
      (keyCodes a = keyCodes b → b.id ≤ a.id) := by
  simp only [keyLt, decide_eq_false_iff_not]
  constructor
  · intro h
    refine ⟨?_, ?_⟩
    · cases hx : strLt (keyCodes a) (keyCodes b)
      · rfl
      · exact absurd (Or.inl hx) h
    · intro he
      by_contra hid
      exact h (Or.inr ⟨he, by omega⟩)
  · rintro ⟨h1, h2⟩ (h | ⟨he, hid⟩)
    · exact absurd h (by simp [h1])
    · exact absurd hid (by have := h2 he; omega)

theorem keyLt_asymm {a b : Task} (h : keyLt a b = true) : keyLt b a = false := by
  rw [keyLt_true] at h
  rw [keyLt_false]
  rcases h with h | ⟨he, hid⟩
  · refine ⟨strLt_asymm _ _ h, fun he => ?_⟩
    rw [he] at h
    exact absurd h (by simp [strLt_irrefl])
  · exact ⟨by rw [he, strLt_irrefl], fun _ => by omega⟩

theorem keyLt_le_lt {u w t : Task} (h1 : keyLt w u = false)
    (h2 : keyLt w t = true) : keyLt u t = true := by
  rw [keyLt_false] at h1
  rw [keyLt_true] at h2
  rw [keyLt_true]
  obtain ⟨hlt, hid⟩ := h1
  have huw : keyCodes u = keyCodes w ∨ strLt (keyCodes u) (keyCodes w) = true := by
    cases hx : strLt (keyCodes u) (keyCodes w)
    · exact Or.inl (strLt_conn _ _ hx hlt)
    · exact Or.inr rfl
  rcases h2 with h2 | ⟨he, hid2⟩
  · rcases huw with he | hlt2
    · exact Or.inl (he ▸ h2)
    · exact Or.inl (strLt_trans _ _ _ hlt2 h2)
  · rcases huw with he2 | hlt2
    · exact Or.inr ⟨he2.trans he, by have := hid he2.symm; omega⟩
    · exact Or.inl (he ▸ hlt2)

theorem mem_insertTask {u t : Task} :
    ∀ {l : List Task}, u ∈ insertTask t l → u = t ∨ u ∈ l := by
  intro l
  induction l with
  | nil => simp [insertTask]
  | cons v vs ih =>
    simp only [insertTask]
    split_ifs with hv
    · intro h
      rcases List.mem_cons.mp h with h | h
      · exact Or.inr (h ▸ List.mem_cons_self v vs)
      · rcases ih h with h | h
        · exact Or.inl h
        · exact Or.inr (List.mem_cons_of_mem v h)
    · intro h
      rcases List.mem_cons.mp h with h | h
      · exact Or.inl h
      · exact Or.inr h

theorem insertTask_perm (t : Task) :
    ∀ l : List Task, (insertTask t l).Perm (t :: l)
  | [] => List.Perm.refl _
  | v :: vs => by
    simp only [insertTask]
    split_ifs with hv
    · exact ((insertTask_perm t vs).cons v).trans (List.Perm.swap t v vs)
    · exact List.Perm.refl _

theorem sortTasks_perm : ∀ l : List Task, (sortTasks l).Perm l
  | [] => List.Perm.refl _
  | t :: ts => (insertTask_perm t (sortTasks ts)).trans ((sortTasks_perm ts).cons t)

theorem insertTask_sorted {t : Task} :
    ∀ {l : List Task}, l.Pairwise taskLe → (insertTask t l).Pairwise taskLe := by
  intro l
  induction l with
  | nil => intro _; simp [insertTask]
  | cons v vs ih =>
    intro h
    rcases List.pairwise_cons.mp h with ⟨hv, hvs⟩
    simp only [insertTask]
    split_ifs with hlt
    · refine List.pairwise_cons.mpr ⟨?_, ih hvs⟩
      intro w hw
      rcases mem_insertTask hw with rfl | hw
      · exact keyLt_asymm hlt
      · exact hv w hw
    · refine List.pairwise_cons.mpr ⟨?_, h⟩
      intro w hw
      rcases List.mem_cons.mp hw with rfl | hw
      · exact Bool.eq_false_iff.mpr hlt
      · have hvw := hv w hw
        unfold taskLe at hvw ⊢
        cases hx : keyLt w t
        · rfl
        · exact absurd (keyLt_le_lt hvw hx) hlt

theorem sortTasks_sorted : ∀ l : List Task, (sortTasks l).Pairwise taskLe
  | [] => List.Pairwise.nil
  | _ :: ts => insertTask_sorted (sortTasks_sorted ts)

theorem validDate_shape {l : List Nat} (h : validDate l = true) :
    ∃ y1 y2 y3 y4 m1 m2 d1 d2,
      l = [y1, y2, y3, y4, 45, m1, m2, 45, d1, d2] ∧
      (48 ≤ y1 ∧ y1 ≤ 57) ∧ (48 ≤ y2 ∧ y2 ≤ 57) ∧ (48 ≤ y3 ∧ y3 ≤ 57) ∧
      (48 ≤ y4 ∧ y4 ≤ 57) ∧ (48 ≤ m1 ∧ m1 ≤ 57) ∧ (48 ≤ m2 ∧ m2 ≤ 57) ∧
      (48 ≤ d1 ∧ d1 ≤ 57) ∧ (48 ≤ d2 ∧ d2 ≤ 57) := by
  match l with
  | [y1, y2, y3, y4, s1, m1, m2, s2, d1, d2] =>
    simp only [validDate, isDig, Bool.and_eq_true, beq_iff_eq,
      decide_eq_true_eq] at h
    obtain ⟨⟨⟨⟨⟨⟨⟨⟨⟨hy1, hy2⟩, hy3⟩, hy4⟩, hs1⟩, hm1⟩, hm2⟩, hs2⟩, hd1⟩, hd2⟩ := h
    subst hs1; subst hs2
    exact ⟨y1, y2, y3, y4, m1, m2, d1, d2, rfl, hy1, hy2, hy3, hy4, hm1, hm2, hd1, hd2⟩
  | [] => simp [validDate] at h
  | [_] => simp [validDate] at h
  | [_, _] => simp [validDate] at h
  | [_, _, _] => simp [validDate] at h
  | [_, _, _, _] => simp [validDate] at h
  | [_, _, _, _, _] => simp [validDate] at h
  | [_, _, _, _, _, _] => simp [validDate] at h
  | [_, _, _, _, _, _, _] => simp [validDate] at h
  | [_, _, _, _, _, _, _, _] => simp [validDate] at h
  | [_, _, _, _, _, _, _, _, _] => simp [validDate] at h
  | _ :: _ :: _ :: _ :: _ :: _ :: _ :: _ :: _ :: _ :: _ :: _ => simp [validDate] at h

theorem strLt_cons_iff {a b : Nat} {as bs : List Nat} :
    strLt (a :: as) (b :: bs) = true ↔ a < b ∨ (a = b ∧ strLt as bs = true) := by
  simp only [strLt]
  by_cases h1 : a < b
  · simp [h1]
  · by_cases h2 : b < a
    · rw [if_neg h1, if_pos h2]
      constructor
      · intro h; exact absurd h (by simp)
      · rintro (h | ⟨h, _⟩) <;> omega
    · rw [if_neg h1, if_neg h2]
      have hab : a = b := by omega
      constructor
      · intro h; exact Or.inr ⟨hab, h⟩
      · rintro (h | ⟨_, h⟩)
        · omega
        · exact h

/-- Lexicographic comparison of the eight digit code points of two
`YYYY-MM-DD` strings coincides with comparison of their calendar values. -/
theorem codeLex_iff {a1 a2 a3 a4 a5 a6 a7 a8 b1 b2 b3 b4 b5 b6 b7 b8 : Nat}
    (ha1 : 48 ≤ a1 ∧ a1 ≤ 57) (ha2 : 48 ≤ a2 ∧ a2 ≤ 57) (ha3 : 48 ≤ a3 ∧ a3 ≤ 57)
    (ha4 : 48 ≤ a4 ∧ a4 ≤ 57) (ha5 : 48 ≤ a5 ∧ a5 ≤ 57) (ha6 : 48 ≤ a6 ∧ a6 ≤ 57)
    (ha7 : 48 ≤ a7 ∧ a7 ≤ 57) (ha8 : 48 ≤ a8 ∧ a8 ≤ 57)
    (hb1 : 48 ≤ b1 ∧ b1 ≤ 57) (hb2 : 48 ≤ b2 ∧ b2 ≤ 57) (hb3 : 48 ≤ b3 ∧ b3 ≤ 57)
    (hb4 : 48 ≤ b4 ∧ b4 ≤ 57) (hb5 : 48 ≤ b5 ∧ b5 ≤ 57) (hb6 : 48 ≤ b6 ∧ b6 ≤ 57)
    (hb7 : 48 ≤ b7 ∧ b7 ≤ 57) (hb8 : 48 ≤ b8 ∧ b8 ≤ 57) :
    (a1 < b1 ∨ a1 = b1 ∧ (a2 < b2 ∨ a2 = b2 ∧ (a3 < b3 ∨ a3 = b3 ∧ (a4 < b4 ∨ a4 = b4 ∧
      (a5 < b5 ∨ a5 = b5 ∧ (a6 < b6 ∨ a6 = b6 ∧ (a7 < b7 ∨ a7 = b7 ∧ a8 < b8))))))) ↔
    ((a1 - 48) * 1000 + (a2 - 48) * 100 + (a3 - 48) * 10 + (a4 - 48)) * 10000 +
      ((a5 - 48) * 10 + (a6 - 48)) * 100 + ((a7 - 48) * 10 + (a8 - 48)) <
    ((b1 - 48) * 1000 + (b2 - 48) * 100 + (b3 - 48) * 10 + (b4 - 48)) * 10000 +
      ((b5 - 48) * 10 + (b6 - 48)) * 100 + ((b7 - 48) * 10 + (b8 - 48)) := by
  obtain ⟨x1, rfl⟩ : ∃ x, a1 = x + 48 := ⟨a1 - 48, by omega⟩
  obtain ⟨x2, rfl⟩ : ∃ x, a2 = x + 48 := ⟨a2 - 48, by omega⟩
  obtain ⟨x3, rfl⟩ : ∃ x, a3 = x + 48 := ⟨a3 - 48, by omega⟩
  obtain ⟨x4, rfl⟩ : ∃ x, a4 = x + 48 := ⟨a4 - 48, by omega⟩
  obtain ⟨x5, rfl⟩ : ∃ x, a5 = x + 48 := ⟨a5 - 48, by omega⟩
  obtain ⟨x6, rfl⟩ : ∃ x, a6 = x + 48 := ⟨a6 - 48, by omega⟩
  obtain ⟨x7, rfl⟩ : ∃ x, a7 = x + 48 := ⟨a7 - 48, by omega⟩
  obtain ⟨x8, rfl⟩ : ∃ x, a8 = x + 48 := ⟨a8 - 48, by omega⟩
  obtain ⟨y1, rfl⟩ : ∃ x, b1 = x + 48 := ⟨b1 - 48, by omega⟩
  obtain ⟨y2, rfl⟩ : ∃ x, b2 = x + 48 := ⟨b2 - 48, by omega⟩
  obtain ⟨y3, rfl⟩ : ∃ x, b3 = x + 48 := ⟨b3 - 48, by omega⟩
  obtain ⟨y4, rfl⟩ : ∃ x, b4 = x + 48 := ⟨b4 - 48, by omega⟩
  obtain ⟨y5, rfl⟩ : ∃ x, b5 = x + 48 := ⟨b5 - 48, by omega⟩
  obtain ⟨y6, rfl⟩ : ∃ x, b6 = x + 48 := ⟨b6 - 48, by omega⟩
  obtain ⟨y7, rfl⟩ : ∃ x, b7 = x + 48 := ⟨b7 - 48, by omega⟩
  obtain ⟨y8, rfl⟩ : ∃ x, b8 = x + 48 := ⟨b8 - 48, by omega⟩
  simp only [Nat.add_sub_cancel, Nat.add_lt_add_iff_right, Nat.add_right_cancel_iff]
  constructor
  · rintro (h | ⟨rfl, h | ⟨rfl, h | ⟨rfl, h | ⟨rfl, h | ⟨rfl, h | ⟨rfl, h | ⟨rfl, h⟩⟩⟩⟩⟩⟩⟩) <;>
      (ring_nf; omega)
  · intro h
    ring_nf at h
    rcases Nat.lt_trichotomy x1 y1 with h1 | h1 | h1
    · exact Or.inl h1
    all_goals try (exfalso; omega)
    refine Or.inr ⟨h1, ?_⟩
    rcases Nat.lt_trichotomy x2 y2 with h2 | h2 | h2
    · exact Or.inl h2
    all_goals try (exfalso; omega)
    refine Or.inr ⟨h2, ?_⟩
    rcases Nat.lt_trichotomy x3 y3 with h3 | h3 | h3
    · exact Or.inl h3
    all_goals try (exfalso; omega)
    refine Or.inr ⟨h3, ?_⟩
    rcases Nat.lt_trichotomy x4 y4 with h4 | h4 | h4
    · exact Or.inl h4
    all_goals try (exfalso; omega)
    refine Or.inr ⟨h4, ?_⟩
    rcases Nat.lt_trichotomy x5 y5 with h5 | h5 | h5
    · exact Or.inl h5
    all_goals try (exfalso; omega)
    refine Or.inr ⟨h5, ?_⟩
    rcases Nat.lt_trichotomy x6 y6 with h6 | h6 | h6
    · exact Or.inl h6
    all_goals try (exfalso; omega)
    refine Or.inr ⟨h6, ?_⟩
    rcases Nat.lt_trichotomy x7 y7 with h7 | h7 | h7
    · exact Or.inl h7
    all_goals try (exfalso; omega)
    exact Or.inr ⟨h7, by omega⟩

/-- On `YYYY-MM-DD` strings, the Python lexicographic string comparison agrees
with comparison of the calendar values. -/
theorem strLt_valid_iff {l1 l2 : List Nat} (h1 : validDate l1 = true)
    (h2 : validDate l2 = true) : strLt l1 l2 = true ↔ dv l1 < dv l2 := by
  obtain ⟨a1, a2, a3, a4, a5, a6, a7, a8, rfl, ha1, ha2, ha3, ha4, ha5, ha6, ha7, ha8⟩ :=
    validDate_shape h1
  obtain ⟨b1, b2, b3, b4, b5, b6, b7, b8, rfl, hb1, hb2, hb3, hb4, hb5, hb6, hb7, hb8⟩ :=
    validDate_shape h2
  simp only [strLt_cons_iff, dv,
    show (strLt ([] : List Nat) [] = true) ↔ False by simp [strLt],
    lt_self_iff_false, eq_self_iff_true, false_or, true_and, and_false, or_false]
  exact codeLex_iff ha1 ha2 ha3 ha4 ha5 ha6 ha7 ha8 hb1 hb2 hb3 hb4 hb5 hb6 hb7 hb8

/-- A valid date string compares below the `'z'` sentinel key. -/
theorem strLt_valid_z {l : List Nat} (h : validDate l = true) :
    strLt l [122] = true := by
  obtain ⟨a1, _, _, _, _, _, _, _, rfl, ha1, _⟩ := validDate_shape h
  simp only [strLt]
  split_ifs <;> first | rfl | omega

theorem validDate_ne_nil {l : List Nat} (h : validDate l = true) : l ≠ [] := by
  obtain ⟨_, _, _, _, _, _, _, _, rfl, _⟩ := validDate_shape h
  simp

/-- An undated task (no due date, or the falsy empty string) is keyed by the
`'z'` sentinel. -/
theorem keyCodes_undated {t : Task}
    (h : t.due_date = JValue.null ∨ t.due_date = JValue.str "") :
    keyCodes t = [122] := by
  rcases h with h | h <;> simp [keyCodes, dueKey, jTruthy, h, codes]

/-- A task whose due date is a valid date string is keyed by that string. -/
theorem keyCodes_dated {t : Task} (h : isDated t) :
    ∃ s, t.due_date = JValue.str s ∧ validDate (codes s) = true ∧
      keyCodes t = codes s := by
  obtain ⟨s, he, hv⟩ := h
  refine ⟨s, he, hv, ?_⟩
  have hne : s.data ≠ [] := by
    intro hd
    exact validDate_ne_nil hv (by simp [codes, hd])
  simp [keyCodes, dueKey, jTruthy, he, hne]

theorem not_isDated_undated {t : Task}
    (h : t.due_date = JValue.null ∨ t.due_date = JValue.str "") :
    ¬ isDated t := by
  rintro ⟨s, he, hv⟩
  rcases h with h | h <;> rw [h] at he
  · exact JValue.noConfusion he
  · injection he with hs
    subst hs
    exact absurd hv (by decide)

/-- Under the hypotheses of the claims, the Python key order implies the
order the spec describes. -/
theorem taskLe_specOrder {a b : Task}
    (ha : a.due_date = JValue.null ∨ a.due_date = JValue.str "" ∨ isDated a)
    (hb : b.due_date = JValue.null ∨ b.due_date = JValue.str "" ∨ isDated b)
    (h : taskLe a b) : specOrder a b := by
  unfold taskLe at h
  rw [keyLt_false] at h
  obtain ⟨hlt, hid⟩ := h
  have hcasea : (a.due_date = JValue.null ∨ a.due_date = JValue.str "") ∨ isDated a := by
    tauto
  have hcaseb : (b.due_date = JValue.null ∨ b.due_date = JValue.str "") ∨ isDated b := by
    tauto
  clear ha hb
  rcases hcasea with hua | hda <;> rcases hcaseb with hub | hdb
  · refine Or.inr (Or.inr ⟨not_isDated_undated hua, not_isDated_undated hub, ?_⟩)
    exact hid ((keyCodes_undated hub).trans (keyCodes_undated hua).symm)
  · obtain ⟨s, _, hsv, hk⟩ := keyCodes_dated hdb
    rw [hk, keyCodes_undated hua] at hlt
    exact absurd (strLt_valid_z hsv) (by simp [hlt])
  · exact Or.inr (Or.inl ⟨hda, not_isDated_undated hub⟩)
  · obtain ⟨s1, he1, hv1, hk1⟩ := keyCodes_dated hda
    obtain ⟨s2, he2, hv2, hk2⟩ := keyCodes_dated hdb
    have hdva : taskDV a = dv (codes s1) := by simp [taskDV, he1]
    have hdvb : taskDV b = dv (codes s2) := by simp [taskDV, he2]
    rw [hk1] at hid hlt
    rw [hk2] at hid hlt
    by_cases hx : strLt (codes s1) (codes s2) = true
    · exact Or.inl ⟨hda, hdb,
        Or.inl (by rw [hdva, hdvb]; exact (strLt_valid_iff hv1 hv2).mp hx)⟩
    · have hx2 : strLt (codes s1) (codes s2) = false := by
        cases h2 : strLt (codes s1) (codes s2)
        · rfl
        · exact absurd h2 hx
      have hxe : codes s1 = codes s2 := strLt_conn _ _ hx2 hlt
      exact Or.inl ⟨hda, hdb, Or.inr ⟨by rw [hdva, hdvb, hxe], hid hxe.symm⟩⟩

theorem jLookup_eq_none {fields : List (String × JValue)} {k : String}
    (h : k ∉ fields.map Prod.fst) : jLookup fields k = none := by
  induction fields with
  | nil => rfl
  | cons kv rest ih =>
    simp only [List.map_cons, List.mem_cons] at h
    push_neg at h
    simp only [jLookup, ih h.2]
    rw [if_neg (fun he => h.1 he.symm)]

theorem addDispatch_exited (tasks : List Task) (params : JValue) :
    (addDispatch tasks params).exited = false := by
  cases params <;> try rfl
  rename_i pfields
  simp only [addDispatch]
  split_ifs
  · cases hl : jLookup pfields "description" <;> simp [hl, add_task]
  · rfl

theorem errorDispatch_exited (tasks : List Task) (params : JValue) :
    (errorDispatch tasks params).exited = false := by
  cases params <;> rfl

theorem dispatchCommand_exited (tasks : List Task) (v : JValue) :
    (dispatchCommand tasks v).exited = false := by
  cases v <;> try rfl
  rename_i fields
  simp only [dispatchCommand]
  split
  · exact addDispatch_exited _ _
  · rfl
  · exact errorDispatch_exited _ _
  · rfl

/-- Any turn either leaves the store alone or appends a single freshly
numbered pending task. -/
theorem runTurn_tasks_shape (s : List Task) (line : String)
    (oracle : OracleOutcome) :
    (runTurn s line oracle).tasks = s ∨
    ∃ d dd p, (runTurn s line oracle).tasks =
      s ++ [⟨s.length + 1, d, dd, p, "pending"⟩] := by
  unfold runTurn
  split_ifs with hq
  · exact Or.inl rfl
  · cases oracle with
    | parseError => exact Or.inl rfl
    | runtimeError => exact Or.inl rfl
    | output v =>
      cases v <;> try exact Or.inl rfl
      rename_i fields
      simp only [dispatchCommand]
      split
      · generalize (jLookup fields "parameters").getD (JValue.obj []) = params
        cases params <;> try exact Or.inl rfl
        rename_i pfields
        simp only [addDispatch]
        split_ifs
        · cases hl2 : jLookup pfields "description"
          · left
            simp [hl2]
          rename_i d
          simp only [hl2, add_task]
          exact Or.inr ⟨d, _, _, rfl⟩
        · exact Or.inl rfl
      · exact Or.inl rfl
      · generalize (jLookup fields "parameters").getD (JValue.obj []) = params
        cases params <;> exact Or.inl rfl
      · exact Or.inl rfl

/-- The rendered sequence is a permutation of the store satisfying the
ordering of the spec whenever every due date is absent, empty, or a `YYYY-MM-DD`
string. -/
theorem sortTasks_spec {tasks : List Task}
    (h : ∀ t ∈ tasks,
      t.due_date = JValue.null ∨ t.due_date = JValue.str "" ∨ isDated t) :
    (sortTasks tasks).Perm tasks ∧ (sortTasks tasks).Pairwise specOrder := by
  refine ⟨sortTasks_perm tasks, ?_⟩
  refine (sortTasks_sorted tasks).imp_of_mem ?_
  intro x y hx hy hxy
  exact taskLe_specOrder (h x ((sortTasks_perm tasks).mem_iff.mp hx))
    (h y ((sortTasks_perm tasks).mem_iff.mp hy)) hxy

/-- **C1.**  For every task store whose tasks each have `due_date` absent
(`None`) or a `YYYY-MM-DD` string, the sequence rendered by `list_tasks` is
a permutation of the store in which every dated task precedes every undated
task, dated tasks ascend by calendar date with equal dates broken by
ascending id, and undated tasks are in ascending id order (`specOrder`);
on a non-empty store the rendered lines are exactly this sequence. -/
theorem C1_rendered_order (tasks : List Task)
    (h : ∀ t ∈ tasks, t.due_date = JValue.null ∨ isDated t) :
    (sortTasks tasks).Perm tasks ∧ (sortTasks tasks).Pairwise specOrder ∧
    (tasks.isEmpty = false →
      (list_tasks tasks).2 = Msg.listHeader ::
        (sortTasks tasks).map (fun t => Msg.listLine (renderLine t)) ++
        [Msg.listFooter]) := by
  obtain ⟨hp, hs⟩ := sortTasks_spec
    (fun t ht => (h t ht).elim Or.inl (fun hd => Or.inr (Or.inr hd)))
  exact ⟨hp, hs, fun he => by simp [list_tasks, listMsgs, he]⟩

/-- Witness for C1 at a concrete two-task store (one dated, one undated). -/
theorem C1_witness :
    (sortTasks [⟨1, .str "a", .null, .str "medium", "pending"⟩,
      ⟨2, .str "b", .str "2025-08-18", .str "high", "pending"⟩]).Pairwise
      specOrder :=
  (C1_rendered_order _ (by
    intro t ht
    rcases List.mem_cons.mp ht with rfl | ht
    · exact Or.inl rfl
    rcases List.mem_singleton.mp ht with rfl
    exact Or.inr ⟨"2025-08-18", rfl, by decide⟩)).2.1

/-- **C2.**  `add_task` on a store of `n` tasks appends exactly one task,
with id `n + 1`, leaving every existing task untouched; consequently on a
store with sequential ids the ids remain sequential, hence strictly
increasing in insertion order. -/
theorem C2_add_task_append (tasks : List Task) (d dd p : JValue) :
    (add_task tasks d dd p).1.length = tasks.length + 1 ∧
    (add_task tasks d dd p).1 =
      tasks ++ [⟨tasks.length + 1, d, dd, p, "pending"⟩] ∧
    (add_task tasks d dd p).1.take tasks.length = tasks ∧
    (idsSequential tasks → idsSequential (add_task tasks d dd p).1) ∧
    (idsSequential tasks →
      (add_task tasks d dd p).1.Pairwise fun a b => a.id < b.id) := by
  have happ : (add_task tasks d dd p).1 =
      tasks ++ [⟨tasks.length + 1, d, dd, p, "pending"⟩] := rfl
  have hseq : idsSequential tasks → idsSequential (add_task tasks d dd p).1 := by
    intro h
    unfold idsSequential at h ⊢
    rw [happ]
    simp only [List.map_append, List.length_append, List.map_cons, List.map_nil,
      List.length_cons, List.length_nil]
    rw [h, show tasks.length + 0 + 1 = tasks.length + 1 by omega,
      List.range'_concat 1 tasks.length,
      show 1 + 1 * tasks.length = tasks.length + 1 by omega]
  have hpw : idsSequential tasks →
      (add_task tasks d dd p).1.Pairwise fun a b => a.id < b.id := by
    intro h
    have h2 := hseq h
    unfold idsSequential at h2
    have h3 : ((add_task tasks d dd p).1.map Task.id).Pairwise (· < ·) := by
      rw [h2]
      exact List.pairwise_lt_range' _ _
    exact List.pairwise_map.mp h3
  exact ⟨by rw [happ]; simp, happ, by rw [happ]; exact List.take_left _ _,
    hseq, hpw⟩

/-- Witness for C2: adding to a concrete one-task store keeps the ids
sequential. -/
theorem C2_witness :
    idsSequential (add_task [⟨1, .str "a", .null, .str "medium", "pending"⟩]
      (.str "b") .null (.str "medium")).1 :=
  (C2_add_task_append _ _ _ _).2.2.2.1 rfl

/-- **C6.**  `list_tasks`, modelled as a state-passing operation, returns
the store unchanged, and a second call on the returned store renders the
identical sequence. -/
theorem C6_list_pure (tasks : List Task) :
    (list_tasks tasks).1 = tasks ∧
    (list_tasks (list_tasks tasks).1).2 = (list_tasks tasks).2 :=
  ⟨rfl, rfl⟩

/-- **C9.**  A task whose `due_date` is the empty string is treated exactly
like a task with no due date: it is not dated, its sort key is the `'z'`
sentinel (the same key a `None` due date yields, so it sorts after all
dated tasks with the same id tie-break, as the `specOrder` conclusion
shows), and its rendered line carries no due-date piece. -/
theorem C9_empty_string_undated (tasks : List Task)
    (h : ∀ t ∈ tasks,
      t.due_date = JValue.null ∨ t.due_date = JValue.str "" ∨ isDated t) :
    (sortTasks tasks).Perm tasks ∧ (sortTasks tasks).Pairwise specOrder ∧
    ∀ t : Task, t.due_date = JValue.str "" →
      ¬ isDated t ∧ dueKey t = JValue.str "z" ∧
      dueKey t = dueKey ⟨t.id, t.description, JValue.null, t.priority, t.status⟩ ∧
      dueNote t = "" := by
  obtain ⟨hp, hs⟩ := sortTasks_spec h
  refine ⟨hp, hs, fun t ht => ⟨not_isDated_undated (Or.inr ht), ?_, ?_, ?_⟩⟩
  · unfold dueKey
    rw [ht]
    rfl
  · unfold dueKey
    rw [ht]
    rfl
  · unfold dueNote
    rw [ht]
    rfl

/-- **C7.**  The read loop exits exactly on a case-insensitive quit/exit
line; that check precedes the interpretation pipeline, so on a quit line
the turn is the goodbye turn whatever the oracle outcome, and every other
line — whatever the turn produced, including parse and runtime failures —
leaves the loop running. -/
theorem C7_quit_only (tasks : List Task) (line : String)
    (oracle : OracleOutcome) :
    ((runTurn tasks line oracle).exited = true ↔
      pyLower line = "quit" ∨ pyLower line = "exit") ∧
    ((pyLower line = "quit" ∨ pyLower line = "exit") →
      runTurn tasks line oracle = ⟨tasks, [Msg.goodbye], true⟩) := by
  unfold runTurn
  split_ifs with hq
  · exact ⟨by simp [hq], fun _ => rfl⟩
  · refine ⟨?_, fun hc => absurd hc hq⟩
    cases oracle with
    | output v => simp [dispatchCommand_exited tasks v, hq]
    | parseError => simp [hq]
    | runtimeError => simp [hq]

/-- Witness for C7: a quit line, even under a parse failure, ends the
session with the goodbye message and an unchanged store. -/
theorem C7_witness :
    runTurn [] "Quit" OracleOutcome.parseError = ⟨[], [Msg.goodbye], true⟩ :=
  (C7_quit_only [] "Quit" OracleOutcome.parseError).2 (Or.inl (by decide))

/-- **C8.**  Every task in every store reachable by the read loop from the
initial empty store has status `pending`: `add_task` is the only mutation
and it always stores `pending`. -/
theorem C8_status_pending (s : List Task) (h : Reachable s) :
    ∀ t ∈ s, t.status = "pending" := by
  induction h with
  | init => intro t ht; exact absurd ht (List.not_mem_nil t)
  | step s2 line oracle _ ih =>
    rcases runTurn_tasks_shape s2 line oracle with he | ⟨d, dd, p, he⟩
    · rw [he]; exact ih
    · rw [he]
      intro t ht
      rcases List.mem_append.mp ht with ht | ht
      · exact ih t ht
      · rcases List.mem_singleton.mp ht with rfl
        rfl

/-- Witness for C8: the store reached after one successful add turn holds a
pending task. -/
theorem C8_witness :
    Task.status ⟨1, .str "x", .null, .str "medium", "pending"⟩ = "pending" :=
  C8_status_pending _
    (Reachable.step [] "add" (.output (.obj [("action", .str "add_task"),
      ("parameters", .obj [("description", .str "x")])])) Reachable.init)
    _ (List.Mem.head _)

/-- Counterexample to **C3** as stated: the oracle output `[]` is valid
JSON but not an object, hence ill-formed for the schema; the turn leaves
the store unchanged and does not crash, but it surfaces the generic
unexpected-error message, not the parse-failure message the claim
requires. -/
theorem C3_counterexample :
    isObj (JValue.arr []) = false ∧
    (runTurn [] "hello" (.output (.arr []))).printed = [Msg.unexpectedError] ∧
    Msg.parseTrouble ∉ (runTurn [] "hello" (.output (.arr []))).printed ∧
    (runTurn [] "hello" (.output (.arr []))).tasks = [] := by
  refine ⟨rfl, rfl, ?_, rfl⟩
  rw [show (runTurn [] "hello" (.output (.arr []))).printed =
    [Msg.unexpectedError] from rfl]
  simp

/-- **C3 (amended).**  On a non-quit turn whose oracle output is ill-formed
(unparseable text, or parseable but not an object), the store is unchanged,
the session continues, and an error is surfaced: the parse-failure message
for unparseable text, but the generic unexpected-error message for
parseable non-object output. -/
theorem C3_amended (tasks : List Task) (line : String) (oracle : OracleOutcome)
    (hq : ¬(pyLower line = "quit" ∨ pyLower line = "exit"))
    (hill : oracle = .parseError ∨ ∃ v, oracle = .output v ∧ isObj v = false) :
    (runTurn tasks line oracle).tasks = tasks ∧
    (runTurn tasks line oracle).exited = false ∧
    (oracle = .parseError →
      (runTurn tasks line oracle).printed = [Msg.parseTrouble]) ∧
    (∀ v, oracle = .output v → isObj v = false →
      (runTurn tasks line oracle).printed = [Msg.unexpectedError]) := by
  unfold runTurn
  rw [if_neg hq]
  rcases hill with rfl | ⟨v, rfl, hv⟩
  · exact ⟨rfl, rfl, fun _ => rfl,
      fun v2 h2 _ => OracleOutcome.noConfusion h2⟩
  · cases v
    case obj fields => simp [isObj] at hv
    all_goals exact ⟨rfl, rfl, fun h => OracleOutcome.noConfusion h,
      fun v2 h2 _ => by cases h2; rfl⟩

/-- Witness for C3 (amended): a parse failure on a non-quit line keeps the
store and prints the parse-failure message. -/
theorem C3_amended_witness :
    (runTurn [] "x" OracleOutcome.parseError).printed = [Msg.parseTrouble] :=
  (C3_amended [] "x" OracleOutcome.parseError (by decide) (Or.inl rfl)).2.2.1 rfl

/-- Counterexample to **C4** as stated: a parsed command with the
unrecognized action `"foo"` is silently ignored — no message is printed —
rather than surfaced to the user as an interpretation failure. -/
theorem C4_counterexample :
    runTurn [] "hi" (.output (.obj [("action", .str "foo"),
      ("parameters", .obj [])])) = ⟨[], [], false⟩ := rfl

/-- **C4 (amended).**  On a non-quit turn, a parsed object command whose
`action` is absent, non-string, or not one of `add_task`/`list_tasks`/
`error` never creates a task and never exits, but it is silently ignored:
the turn prints nothing. -/
theorem C4_amended (tasks : List Task) (line : String)
    (fields : List (String × JValue))
    (hq : ¬(pyLower line = "quit" ∨ pyLower line = "exit"))
    (ha : ∀ s, jLookup fields "action" = some (JValue.str s) →
      s ≠ "add_task" ∧ s ≠ "list_tasks" ∧ s ≠ "error") :
    runTurn tasks line (.output (.obj fields)) = ⟨tasks, [], false⟩ := by
  unfold runTurn
  rw [if_neg hq]
  simp only [dispatchCommand]
  split
  · rename_i heq
    exact absurd rfl (ha _ heq).1
  · rename_i heq
    exact absurd rfl (ha _ heq).2.1
  · rename_i heq
    exact absurd rfl (ha _ heq).2.2
  · rfl

/-- Witness for C4 (amended) at the concrete unrecognized action `"foo"`. -/
theorem C4_amended_witness :
    runTurn [] "y" (.output (.obj [("action", .str "foo"),
      ("parameters", .obj [])])) = ⟨[], [], false⟩ :=
  C4_amended [] "y" _ (by decide) (by
    intro s hs
    have h : JValue.str "foo" = JValue.str s := Option.some.inj hs
    cases h
    exact ⟨by decide, by decide, by decide⟩)

/-- Counterexample to **C5** as stated: an `add_task` command whose
`description` is the empty string is accepted — a task with empty
description is appended and a confirmation printed, with no validation
error. -/
theorem C5_counterexample :
    (runTurn [] "add" (.output (.obj [("action", .str "add_task"),
      ("parameters", .obj [("description", .str "")])]))).tasks =
      [⟨1, .str "", .null, .str "medium", "pending"⟩] ∧
    (runTurn [] "add" (.output (.obj [("action", .str "add_task"),
      ("parameters", .obj [("description", .str "")])]))).printed =
      [Msg.taskAdded (.str "") (.str "medium")] := ⟨rfl, rfl⟩

/-- **C5 (amended).**  On a non-quit turn, an `add_task` command whose
parameters object lacks the `description` key surfaces the generic
unexpected-error message (the `TypeError` of the keyword expansion) with no
store mutation; an `add_task` command whose description is present but
empty, however, is accepted: it appends a task with empty description and
prints the confirmation. -/
theorem C5_amended :
    (∀ (tasks : List Task) (line : String)
      (fields pfields : List (String × JValue)),
      ¬(pyLower line = "quit" ∨ pyLower line = "exit") →
      jLookup fields "action" = some (JValue.str "add_task") →
      jLookup fields "parameters" = some (JValue.obj pfields) →
      "description" ∉ pfields.map Prod.fst →
      runTurn tasks line (.output (.obj fields)) =
        ⟨tasks, [Msg.unexpectedError], false⟩) ∧
    (∀ (tasks : List Task) (line : String),
      ¬(pyLower line = "quit" ∨ pyLower line = "exit") →
      runTurn tasks line (.output (.obj [("action", JValue.str "add_task"),
        ("parameters", JValue.obj [("description", JValue.str "")])])) =
        ⟨tasks ++ [⟨tasks.length + 1, JValue.str "", JValue.null,
          JValue.str "medium", "pending"⟩],
          [Msg.taskAdded (JValue.str "") (JValue.str "medium")], false⟩) := by
  constructor
  · intro tasks line fields pfields hq ha hp hd
    unfold runTurn
    rw [if_neg hq]
    simp only [dispatchCommand]
    split
    · rename_i heq
      rw [hp]
      simp only [Option.getD_some, addDispatch]
      split_ifs
      · rw [jLookup_eq_none hd]
      · rfl
    · rename_i heq
      exact absurd (JValue.str.inj (Option.some.inj (ha.symm.trans heq)))
        (by decide)
    · rename_i heq
      exact absurd (JValue.str.inj (Option.some.inj (ha.symm.trans heq)))
        (by decide)
    · rename_i hne1 hne2 hne3
      exact absurd ha hne1
  · intro tasks line hq
    unfold runTurn
    rw [if_neg hq]
    rfl

/-- Witness for C5 (amended): both branches at concrete inputs — a missing
description yields the generic error and no mutation, the empty description
appends. -/
theorem C5_amended_witness :
    runTurn [] "a" (.output (.obj [("action", JValue.str "add_task"),
      ("parameters", JValue.obj [("priority", JValue.str "high")])])) =
      ⟨[], [Msg.unexpectedError], false⟩ ∧
    runTurn [] "b" (.output (.obj [("action", JValue.str "add_task"),
      ("parameters", JValue.obj [("description", JValue.str "")])])) =
      ⟨[⟨1, JValue.str "", JValue.null, JValue.str "medium", "pending"⟩],
        [Msg.taskAdded (JValue.str "") (JValue.str "medium")], false⟩ :=
  ⟨C5_amended.1 [] "a" _ _ (by decide) rfl rfl (by simp),
    C5_amended.2 [] "b" (by decide)⟩

/-- **C10.**  On a non-quit turn, an `add_task` command whose parameters
object carries any key outside `description`/`due_date`/`priority` leaves
the store unchanged — the keyword expansion raises before `add_task` runs —
and the turn ends with the generic error report, not process termination. -/
theorem C10_unknown_key (tasks : List Task) (line : String)
    (fields pfields : List (String × JValue)) (k : String)
    (hq : ¬(pyLower line = "quit" ∨ pyLower line = "exit"))
    (ha : jLookup fields "action" = some (JValue.str "add_task"))
    (hp : jLookup fields "parameters" = some (JValue.obj pfields))
    (hk : k ∈ pfields.map Prod.fst)
    (hbad : k ≠ "description" ∧ k ≠ "due_date" ∧ k ≠ "priority") :
    runTurn tasks line (.output (.obj fields)) =
      ⟨tasks, [Msg.unexpectedError], false⟩ := by
  unfold runTurn
  rw [if_neg hq]
  simp only [dispatchCommand]
  split
  · rename_i heq
    rw [hp]
    simp only [Option.getD_some, addDispatch]
    split_ifs with hall
    · exfalso
      obtain ⟨kv, hkv, hkeq⟩ := List.mem_map.mp hk
      have hkv2 := List.all_eq_true.mp hall kv hkv
      rw [hkeq] at hkv2
      simp only [Bool.or_eq_true, beq_iff_eq] at hkv2
      rcases hkv2 with (h | h) | h
      · exact hbad.1 h
      · exact hbad.2.1 h
      · exact hbad.2.2 h
    · rfl
  · rename_i heq
    exact absurd (JValue.str.inj (Option.some.inj (ha.symm.trans heq)))
      (by decide)
  · rename_i heq
    exact absurd (JValue.str.inj (Option.some.inj (ha.symm.trans heq)))
      (by decide)
  · rename_i hne1 hne2 hne3
    exact absurd ha hne1

/-- Witness for C10 at a concrete command carrying the stray key
`"deadline"`. -/
theorem C10_witness :
    runTurn [] "c" (.output (.obj [("action", JValue.str "add_task"),
      ("parameters", JValue.obj [("description", JValue.str "x"),
        ("deadline", JValue.str "2025-01-01")])])) =
      ⟨[], [Msg.unexpectedError], false⟩ :=
  C10_unknown_key [] "c" _ _ "deadline" (by decide) rfl rfl (by simp)
    ⟨by decide, by decide, by decide⟩

/-- Witness for C9 at a concrete store containing an empty-string due date
and a dated task. -/
theorem C9_witness :
    (sortTasks [⟨1, .str "a", .str "", .str "medium", "pending"⟩,
      ⟨2, .str "b", .str "2025-01-02", .str "medium", "pending"⟩]).Pairwise
      specOrder :=
  (C9_empty_string_undated _ (by
    intro t ht
    rcases List.mem_cons.mp ht with rfl | ht
    · exact Or.inr (Or.inl rfl)
    rcases List.mem_singleton.mp ht with rfl
    exact Or.inr (Or.inr ⟨"2025-01-02", rfl, by decide⟩))).2.1

end ToDo
